import Mathlib

/-!
Verification of the hyperspy model-composition and fitting core
(`src/hyperspy/model.py`, `src/eelslab/components/edge.py`) against its
natural-language specification.

Modelling conventions (shallow embedding):
* spectral values are rationals (`ℚ`): the numpy float arithmetic of the
  source is modelled exactly, abstracting from floating-point rounding,
  which the spec itself brackets out ("within floating tolerance",
  "beyond floating-point summation order");
* a numpy 1-D array is a `List ℚ`; boolean-mask indexing `a[mask]` is
  `boolMask`; `np.add(a, b, a)` is `addLists` (elementwise `zipWith (+)`);
* a Component's `function` and each Parameter's `grad` are pointwise maps
  `ℚ → ℚ` applied to every point of the axis array, exactly the contract
  the spec gives them ("pure evaluation of the component's contribution at
  each point of `axis`");
* `np.convolve(a, v, mode="valid")` is `npConvolveValid`;
* operations that can abort via `messages.warning_exit` or an uncaught
  exception are embedded in `Except String`;
* side-effecting drivers (`multifit`, `charge`, `set`) are embedded as
  pure functions that also return the ordered trace of their observable
  events.
-/

namespace HyperspyModel

/-- Elementwise sum of two numpy arrays, `np.add(a, b, out)`. -/
def addLists (a b : List ℚ) : List ℚ := List.zipWith (· + ·) a b

/-- Elementwise product of two numpy arrays (`a * w`). -/
def mulLists (a b : List ℚ) : List ℚ := List.zipWith (· * ·) a b

/-- The numpy `np.zeros(n)` array. -/
def zeros (n : ℕ) : List ℚ := List.replicate n 0

/-- Numpy boolean-mask indexing `xs[mask]`: keep the entries of `xs` at the
positions where `mask` holds `True`. -/
def boolMask {α : Type} (mask : List Bool) (xs : List α) : List α :=
  (List.zip mask xs).filterMap (fun p => if p.1 then some p.2 else none)

/-- One lag of a discrete convolution in which the filter `short` is fully
overlapped with `long` starting at offset `k`:
`∑ i < len(short), long[k+i] * short[len(short)-1-i]`. -/
def convLag (long short : List ℚ) (k : ℕ) : ℚ :=
  ((List.range short.length).map
    (fun i => long.getD (k + i) 0 * short.getD (short.length - 1 - i) 0)).sum

/-- Valid-mode discrete convolution with `long` the longer input: only the
fully-overlapping lags are kept, giving `len(long) - len(short) + 1` samples. -/
def validConv (long short : List ℚ) : List ℚ :=
  (List.range (long.length + 1 - short.length)).map (convLag long short)

/-- The numpy `np.convolve(a, v, mode="valid")`: numpy swaps its inputs so that the
first is the longer one (discrete convolution is commutative), then keeps the
fully-overlapping lags. -/
def npConvolveValid (a v : List ℚ) : List ℚ :=
  if v.length ≤ a.length then validConv a v else validConv v a

theorem addLists_length (a b : List ℚ) :
    (addLists a b).length = min a.length b.length := by
  simp [addLists]

theorem mulLists_length (a b : List ℚ) :
    (mulLists a b).length = min a.length b.length := by
  simp [mulLists]

theorem zeros_length (n : ℕ) : (zeros n).length = n := by
  simp [zeros]

theorem validConv_length (long short : List ℚ) :
    (validConv long short).length = long.length + 1 - short.length := by
  simp [validConv]

theorem boolMask_length {α : Type} (mask : List Bool) (xs : List α)
    (h : mask.length = xs.length) :
    (boolMask mask xs).length = mask.count true := by
  induction mask generalizing xs with
  | nil => simp [boolMask]
  | cons m ms ih =>
    cases xs with
    | nil => simp at h
    | cons x xs =>
      simp only [List.length_cons, Nat.succ_inj] at h
      cases m <;>
        simp [boolMask, List.zip_cons_cons, List.filterMap_cons, List.count_cons,
          ← ih xs h, boolMask]

/-- A Python parameter value: a scalar, or a list of scalars (a small-vector
parameter such as `fslist`).  `_set_p0` distinguishes the two cases with
`isinstance(param.value, list)`. -/
inductive PValue : Type
  | scalar (q : ℚ)
  | vector (l : List ℚ)
  deriving Repr, DecidableEq

/-- The scalar slots a parameter value occupies in the flattened
free-parameter vector. -/
def PValue.flatten : PValue → List ℚ
  | .scalar q => [q]
  | .vector l => l

/-- A `Parameter` as the model driver sees it: free/fixed state, current
value, optional bounds, a pointwise gradient function, and the pointwise
gradient functions of its direct twins (`parameter._twins`). -/
structure Param : Type where
  free : Bool
  value : PValue
  bmin : Option ℚ := none
  bmax : Option ℚ := none
  grad : ℚ → ℚ := fun _ => 0
  twinGrads : List (ℚ → ℚ) := []

/-- A `Component`: `active` and `convolved` flags, the pointwise evaluator
behind `component.function(axis)`, and the ordered parameter list. -/
structure Component : Type where
  active : Bool
  convolved : Bool
  f : ℚ → ℚ := fun _ => 0
  params : List Param := []

/-- The list `component.free_parameters`: the parameters with `free=True`, in order. -/
def Component.freeParams (c : Component) : List Param :=
  c.params.filter (·.free)

/-- The model state the fitting core reads: the ordered component list, the
spectral axis values (`self.axis.axis`), the channel mask, whether an
instrument response is attached (`self.convolved`), the instrument-response
samples (`self.low_loss(self.axes_manager)`), and the extended convolution
axis values (`self.convolution_axis`). -/
structure Model : Type where
  components : List Component
  axis : List ℚ
  channel_switches : List Bool
  convolved : Bool
  lowLoss : List ℚ := []
  convolution_axis : List ℚ := []

/-- The accumulation loop of the convolved branch of `Model.__call__`: one
pass over the components, adding each skipped/kept component's output into
either the plain-axis accumulator `sum_` or the convolution-axis accumulator
`sum_convolved`. -/
def convAccumStep (onlyactive : Bool) (plainAxis convAxis : List ℚ)
    (acc : List ℚ × List ℚ) (c : Component) : List ℚ × List ℚ :=
  if onlyactive && !c.active then acc
  else if c.convolved then (acc.1, addLists acc.2 (convAxis.map c.f))
  else (addLists acc.1 (plainAxis.map c.f), acc.2)

/-- The evaluator `Model.__call__(non_convolved, onlyactive)` (model.py lines 329-389).
Non-convolved branch: sum the component outputs over the already-masked axis.
Convolved branch: accumulate plain-axis and convolution-axis sums in one
pass, add `sum_` to the valid convolution of the instrument response with
`sum_convolved`, and restrict the total to `channel_switches`. -/
def modelCall (m : Model) (non_convolved onlyactive : Bool) : List ℚ :=
  if m.convolved = false ∨ non_convolved = true then
    let axis := boolMask m.channel_switches m.axis
    if onlyactive then
      (m.components.filter (·.active)).foldl
        (fun s c => addLists s (axis.map c.f)) (zeros axis.length)
    else
      m.components.foldl
        (fun s c => addLists s (axis.map c.f)) (zeros axis.length)
  else
    let acc := m.components.foldl
      (convAccumStep onlyactive m.axis m.convolution_axis)
      (zeros m.axis.length, zeros m.convolution_axis.length)
    boolMask m.channel_switches
      (addLists acc.1 (npConvolveValid m.lowLoss acc.2))

/-- Elementwise sum of the outputs of a list of components over one axis:
the two-stage partitioned sum the spec describes in §4.2. -/
def sumFunctions (cs : List Component) (axis : List ℚ) : List ℚ :=
  cs.foldl (fun s c => addLists s (axis.map c.f)) (zeros axis.length)

/-- A component is kept by the accumulation loop unless `onlyactive` is set
and the component is inactive. -/
def keepComp (onlyactive : Bool) (c : Component) : Bool :=
  !(onlyactive && !c.active)

theorem foldlAdd_length (axis : List ℚ) (cs : List Component) (init : List ℚ)
    (h : init.length = axis.length) :
    (cs.foldl (fun s c => addLists s (axis.map c.f)) init).length =
      axis.length := by
  induction cs generalizing init with
  | nil => simpa using h
  | cons c cs ih => exact ih _ (by simp [addLists_length, h])

theorem sumFunctions_length (cs : List Component) (axis : List ℚ) :
    (sumFunctions cs axis).length = axis.length :=
  foldlAdd_length axis cs _ (zeros_length _)

/-- The single interleaved pass of the convolved branch computes exactly the
two partitioned sums: the kept non-convolved components accumulate into the
first projection, the kept convolved components into the second. -/
theorem convAccum_foldl (oa : Bool) (pA cA : List ℚ) (cs : List Component)
    (a b : List ℚ) :
    cs.foldl (convAccumStep oa pA cA) (a, b) =
      ((cs.filter (fun c => keepComp oa c && !c.convolved)).foldl
          (fun s c => addLists s (pA.map c.f)) a,
       (cs.filter (fun c => keepComp oa c && c.convolved)).foldl
          (fun s c => addLists s (cA.map c.f)) b) := by
  induction cs generalizing a b with
  | nil => simp
  | cons c cs ih =>
    simp only [List.foldl_cons, List.filter_cons]
    by_cases hk : (oa && !c.active) = true
    · simp [convAccumStep, hk, keepComp, ih]
    · by_cases hc : c.convolved = true
      · simp [convAccumStep, hk, hc, keepComp, ih]
      · simp only [Bool.not_eq_true] at hc
        simp [convAccumStep, hk, hc, keepComp, ih]

theorem npConvolveValid_length (a v : List ℚ) :
    (npConvolveValid a v).length =
      max a.length v.length + 1 - min a.length v.length := by
  unfold npConvolveValid
  split <;> simp [validConv_length] <;> omega

/-- C1: with convolution configured and evaluation restricted to active
components, `Model.__call__` returns the sum over the plain axis of the
active non-convolved components' outputs, plus the valid convolution of the
instrument response with the sum over the convolution axis of the active
convolved components' outputs, the total restricted to `channel_switches`. -/
theorem modelCall_convolved_partition (m : Model) (h : m.convolved = true) :
    modelCall m false true =
      boolMask m.channel_switches
        (addLists
          (sumFunctions
            (m.components.filter (fun c => c.active && !c.convolved)) m.axis)
          (npConvolveValid m.lowLoss
            (sumFunctions
              (m.components.filter (fun c => c.active && c.convolved))
              m.convolution_axis))) := by
  unfold modelCall
  rw [if_neg (by simp [h])]
  have e1 : m.components.filter (fun c => keepComp true c && !c.convolved)
      = m.components.filter (fun c => c.active && !c.convolved) :=
    List.filter_congr (fun c _ => by simp [keepComp])
  have e2 : m.components.filter (fun c => keepComp true c && c.convolved)
      = m.components.filter (fun c => c.active && c.convolved) :=
    List.filter_congr (fun c _ => by simp [keepComp])
  simp only [convAccum_foldl, e1, e2]
  rfl

/-- Witness for C1 at a concrete three-component model. -/
def mC1 : Model where
  components :=
    [{ active := true, convolved := false, f := fun x => x + 1 },
     { active := true, convolved := true, f := fun _ => 2 },
     { active := false, convolved := true, f := fun _ => 100 }]
  axis := [0, 1, 2]
  channel_switches := [true, false, true]
  convolved := true
  lowLoss := [1, 0]
  convolution_axis := [0, 1, 2, 3]

theorem modelCall_convolved_partition_witness :
    mC1.convolved = true ∧
      modelCall mC1 false true =
        boolMask mC1.channel_switches
          (addLists
            (sumFunctions
              (mC1.components.filter (fun c => c.active && !c.convolved))
              mC1.axis)
            (npConvolveValid mC1.lowLoss
              (sumFunctions
                (mC1.components.filter (fun c => c.active && c.convolved))
                mC1.convolution_axis))) :=
  ⟨rfl, modelCall_convolved_partition mC1 rfl⟩

/-- C2: for any model state whose mask covers the spectral axis and whose
convolution axis has length `axis-length + response-length − 1`, the vector
returned by `Model.__call__` — in every branch, convolved or not — has length
equal to the number of `True` entries of `channel_switches`. -/
theorem modelCall_length (m : Model) (nc oa : Bool)
    (hmask : m.channel_switches.length = m.axis.length)
    (hconv : m.convolution_axis.length + 1 =
      m.axis.length + m.lowLoss.length)
    (_hll : 1 ≤ m.lowLoss.length) (hax : 1 ≤ m.axis.length) :
    (modelCall m nc oa).length = m.channel_switches.count true := by
  have hmlen : (boolMask m.channel_switches m.axis).length =
      m.channel_switches.count true := boolMask_length _ _ hmask
  unfold modelCall
  by_cases hc : m.convolved = false ∨ nc = true
  · rw [if_pos hc]
    cases oa <;>
      simp only [Bool.false_eq_true, if_false, if_true, reduceIte] <;>
      rw [foldlAdd_length _ _ _ (zeros_length _), hmlen]
  · rw [if_neg hc]
    simp only [convAccum_foldl]
    have l1 : ((m.components.filter
        (fun c => keepComp oa c && !c.convolved)).foldl
        (fun s c => addLists s (m.axis.map c.f))
        (zeros m.axis.length)).length = m.axis.length :=
      foldlAdd_length _ _ _ (zeros_length _)
    have l2 : ((m.components.filter
        (fun c => keepComp oa c && c.convolved)).foldl
        (fun s c => addLists s (m.convolution_axis.map c.f))
        (zeros m.convolution_axis.length)).length =
        m.convolution_axis.length :=
      foldlAdd_length _ _ _ (zeros_length _)
    rw [boolMask_length]
    rw [addLists_length, npConvolveValid_length, l1, l2]
    omega

/-- Witness model for C2: one convolved and one plain component. -/
def mC2 : Model where
  components :=
    [{ active := true, convolved := true, f := fun x => x },
     { active := true, convolved := false, f := fun _ => 3 }]
  axis := [0, 1]
  channel_switches := [false, true]
  convolved := true
  lowLoss := [2, 1]
  convolution_axis := [0, 1, 2]

theorem modelCall_length_witness :
    mC2.channel_switches.length = mC2.axis.length ∧
    mC2.convolution_axis.length + 1 = mC2.axis.length + mC2.lowLoss.length ∧
    1 ≤ mC2.lowLoss.length ∧ 1 ≤ mC2.axis.length ∧
    (modelCall mC2 false false).length = mC2.channel_switches.count true :=
  ⟨rfl, rfl, by decide, by decide,
    modelCall_length mC2 false false rfl rfl (by decide) (by decide)⟩

/-- One step of the `p0` accumulation in `Model._set_p0` (model.py lines
204-217): starting from `None`, each free parameter appends its value —
`p0 + [param.value]` for a scalar, `p0 + param.value` for a list. -/
def p0Step (p0 : Option (List ℚ)) (p : Param) : Option (List ℚ) :=
  match p0 with
  | some l => some (l ++ p.value.flatten)
  | none => some p.value.flatten

/-- The assembly `Model._set_p0`: fold over the components, and over the free parameters
of each active component.  The result is `none` exactly when the accumulator
was never touched, in which case the source's `tuple(p0)` raises
(`tuple(None)` is a `TypeError`). -/
def set_p0 (cs : List Component) : Option (List ℚ) :=
  cs.foldl
    (fun p0 c => if c.active then c.freeParams.foldl p0Step p0 else p0) none

/-- The free parameters of the active components, in component order then
parameter order. -/
def activeFreeParams (cs : List Component) : List Param :=
  (cs.filter (·.active)).flatMap Component.freeParams

/-- The spec's free-parameter vector: concatenation of the current values of
the free parameters of the active components, vector values flattened. -/
def p0Spec (cs : List Component) : List ℚ :=
  (activeFreeParams cs).flatMap (fun p => p.value.flatten)

theorem paramFold_some (ps : List Param) (l : List ℚ) :
    ps.foldl p0Step (some l) =
      some (l ++ ps.flatMap (fun p => p.value.flatten)) := by
  induction ps generalizing l with
  | nil => simp
  | cons p ps ih => simp [p0Step, ih]

theorem paramFold_none (ps : List Param) :
    ps.foldl p0Step none =
      if ps.isEmpty then none
      else some (ps.flatMap (fun p => p.value.flatten)) := by
  cases ps with
  | nil => rfl
  | cons p ps => simp [p0Step, paramFold_some]

theorem activeFreeParams_cons (c : Component) (cs : List Component) :
    activeFreeParams (c :: cs) =
      (if c.active then c.freeParams else []) ++ activeFreeParams cs := by
  cases hc : c.active <;> simp [activeFreeParams, List.filter_cons, hc]

/-- The nested component-then-parameter fold of `_set_p0` is the flat fold
over the free parameters of the active components. -/
theorem compFold_flat (cs : List Component) (o : Option (List ℚ)) :
    cs.foldl
        (fun p0 c => if c.active then c.freeParams.foldl p0Step p0 else p0)
        o =
      (activeFreeParams cs).foldl p0Step o := by
  induction cs generalizing o with
  | nil => simp [activeFreeParams]
  | cons c cs ih =>
    rw [List.foldl_cons, activeFreeParams_cons, List.foldl_append]
    cases hc : c.active
    · simp only [Bool.false_eq_true, if_false, List.foldl_nil]
      exact ih o
    · simp only [if_true, List.foldl_nil]
      exact ih _

theorem set_p0_eq (cs : List Component) :
    set_p0 cs =
      if (activeFreeParams cs).isEmpty then none else some (p0Spec cs) := by
  unfold set_p0
  rw [compFold_flat, paramFold_none]
  rfl

/-- C3: when `_set_p0` succeeds, `p0` is exactly the concatenation — in
component order then parameter order — of the values of the free parameters
of the active components, vector values flattened into consecutive scalar
slots; hence its length is the sum over active components of their
free-parameter element counts, inactive components contributing nothing. -/
theorem set_p0_spec (cs : List Component) (L : List ℚ)
    (h : set_p0 cs = some L) :
    L = p0Spec cs ∧
      L.length = ((cs.filter (·.active)).map
        (fun c => (c.freeParams.map
          (fun p => p.value.flatten.length)).sum)).sum := by
  rw [set_p0_eq] at h
  cases he : (activeFreeParams cs).isEmpty with
  | true => rw [he] at h; simp at h
  | false =>
    rw [he] at h
    simp only [Bool.false_eq_true, if_false, Option.some_inj] at h
    subst h
    refine ⟨rfl, ?_⟩
    have hsum : ∀ (l : List Param),
        (l.flatMap (fun p => p.value.flatten)).length =
          (l.map (fun p => p.value.flatten.length)).sum := by
      intro l
      induction l with
      | nil => rfl
      | cons p l ih => simp [ih]
    have hout : ∀ (l : List Component),
        (l.flatMap Component.freeParams).map
            (fun p => p.value.flatten.length) =
          l.flatMap (fun c => c.freeParams.map
            (fun p => p.value.flatten.length)) := by
      intro l
      induction l with
      | nil => rfl
      | cons c l ih => simp [ih]
    have hsum2 : ∀ (l : List Component),
        (l.flatMap (fun c => c.freeParams.map
            (fun p => p.value.flatten.length))).sum =
          (l.map (fun c => (c.freeParams.map
            (fun p => p.value.flatten.length)).sum)).sum := by
      intro l
      induction l with
      | nil => rfl
      | cons c l ih => simp [ih]
    rw [p0Spec, activeFreeParams, hsum, hout, hsum2]

/-- Witness for C3: two components, the second inactive, with a scalar and a
vector-valued free parameter. -/
def csC3 : List Component :=
  [{ active := true, convolved := false,
     params := [{ free := true, value := .scalar 5 },
                { free := false, value := .scalar 7 },
                { free := true, value := .vector [1, 2, 3] }] },
   { active := false, convolved := false,
     params := [{ free := true, value := .scalar 9 }] }]

theorem set_p0_spec_witness :
    set_p0 csC3 = some [5, 1, 2, 3] ∧
      ([5, 1, 2, 3] : List ℚ) = p0Spec csC3 ∧
      ([5, 1, 2, 3] : List ℚ).length = ((csC3.filter (·.active)).map
        (fun c => (c.freeParams.map
          (fun p => p.value.flatten.length)).sum)).sum := by
  refine ⟨by decide, ?_⟩
  exact set_p0_spec csC3 [5, 1, 2, 3] (by decide)

/-- C10: `_set_p0` leaves the accumulator `None` — so that the final
`tuple(p0)` raises — exactly when no active component has a free parameter;
it succeeds exactly when at least one free parameter exists among the active
components. -/
theorem set_p0_none_iff (cs : List Component) :
    set_p0 cs = none ↔ activeFreeParams cs = [] := by
  rw [set_p0_eq, ← List.isEmpty_iff]
  cases (activeFreeParams cs).isEmpty <;> simp

theorem addLists_assoc (a b c : List ℚ) :
    addLists (addLists a b) c = addLists a (addLists b c) := by
  induction a generalizing b c with
  | nil => simp [addLists]
  | cons x a ih =>
    cases b with
    | nil => simp [addLists]
    | cons y b =>
      cases c with
      | nil => simp [addLists]
      | cons z c =>
        have := ih b c
        simp only [addLists] at this ⊢
        simp [this, add_assoc]

theorem addLists_zeros_left (x : List ℚ) (n : ℕ) (h : x.length = n) :
    addLists (zeros n) x = x := by
  induction x generalizing n with
  | nil => cases h; rfl
  | cons a x ih =>
    cases n with
    | zero => simp at h
    | succ k =>
      simp only [List.length_cons, Nat.succ_inj] at h
      have := ih k h
      simp only [addLists, zeros] at this ⊢
      simp [List.replicate_succ, this]

theorem addLists_zeros_right (x : List ℚ) (n : ℕ) (h : x.length = n) :
    addLists x (zeros n) = x := by
  induction x generalizing n with
  | nil => cases h; rfl
  | cons a x ih =>
    cases n with
    | zero => simp at h
    | succ k =>
      simp only [List.length_cons, Nat.succ_inj] at h
      have := ih k h
      simp only [addLists, zeros] at this ⊢
      simp [List.replicate_succ, this]

/-- A left fold of elementwise sums started from `base` is `base` plus the
same fold started from zeros, provided every row has the common length. -/
theorem foldl_addLists_pull (n : ℕ) (rows : List (List ℚ)) (base : List ℚ)
    (hb : base.length = n) (hr : ∀ r ∈ rows, r.length = n) :
    rows.foldl addLists base = addLists base (rows.foldl addLists (zeros n)) := by
  induction rows generalizing base with
  | nil => simp [addLists_zeros_right base n hb]
  | cons r rows ih =>
    have hrn : r.length = n := hr r (List.mem_cons_self r rows)
    have hrest : ∀ s ∈ rows, s.length = n := fun s hs => hr s (List.mem_cons_of_mem r hs)
    rw [List.foldl_cons, List.foldl_cons]
    rw [ih (addLists base r) (by rw [addLists_length, hb, hrn]; omega) hrest]
    rw [addLists_zeros_left r n hrn]
    rw [ih r hrn hrest]
    rw [addLists_assoc]

/-- The row `Model._jacobian` builds for one free parameter of one active
component in the convolved branch (model.py lines 529-559): the parameter's
gradient — valid-convolved with the instrument response over the convolution
axis when the owning component is convolved, over the plain axis otherwise —
with each direct twin's gradient, evaluated the same way, added in turn. -/
def gradRow (m : Model) (c : Component) (p : Param) : List ℚ :=
  if c.convolved then
    p.twinGrads.foldl
      (fun g t =>
        addLists g (npConvolveValid (m.convolution_axis.map t) m.lowLoss))
      (npConvolveValid (m.convolution_axis.map p.grad) m.lowLoss)
  else
    p.twinGrads.foldl (fun g t => addLists g (m.axis.map t))
      (m.axis.map p.grad)

/-- The row built in the non-convolved branch of `_jacobian` (model.py lines
564-583): gradients are evaluated directly on the already-masked axis. -/
def plainRow (axis : List ℚ) (p : Param) : List ℚ :=
  p.twinGrads.foldl (fun g t => addLists g (axis.map t)) (axis.map p.grad)

/-- Apply the optional per-channel weight vector (`* weights`). -/
def applyWeights (w : Option (List ℚ)) (r : List ℚ) : List ℚ :=
  match w with
  | none => r
  | some wv => mulLists r wv

/-- The jacobian `Model._jacobian(param, y, weights)` after the parameters have been
charged from `param`: the rows are stacked by `np.vstack` onto a dummy first
row which the final `grad[1:]` drops, so the result is the ordered list of
per-free-parameter rows.  In the convolved branch the columns are then
restricted to `channel_switches` (`grad[1:, self.channel_switches]`); in the
non-convolved branch the rows were already computed on the masked axis. -/
def jacobian (m : Model) (w : Option (List ℚ)) : List (List ℚ) :=
  if m.convolved = true then
    (m.components.foldl
      (fun acc c =>
        if c.active then
          c.freeParams.foldl (fun acc2 p => acc2 ++ [gradRow m c p]) acc
        else acc) []).map
      (fun r => applyWeights w (boolMask m.channel_switches r))
  else
    (m.components.foldl
      (fun acc c =>
        if c.active then
          c.freeParams.foldl
            (fun acc2 p =>
              acc2 ++ [plainRow (boolMask m.channel_switches m.axis) p]) acc
        else acc) []).map (applyWeights w)

/-- How the spec evaluates one gradient function: over the convolution axis
followed by a valid convolution with the instrument response when the owning
component is convolved, over the plain spectral axis otherwise. -/
def evalGrad (m : Model) (c : Component) (g : ℚ → ℚ) : List ℚ :=
  if c.convolved then npConvolveValid (m.convolution_axis.map g) m.lowLoss
  else m.axis.map g

theorem foldl_append_singleton {α β : Type} (f : α → β) (ps : List α)
    (acc : List β) :
    ps.foldl (fun a p => a ++ [f p]) acc = acc ++ ps.map f := by
  induction ps generalizing acc with
  | nil => simp
  | cons p ps ih => simp [ih]

/-- The vstack accumulation loop of `_jacobian` produces the rows of the
active components' free parameters, in component order then parameter
order — the same order `_set_p0` uses. -/
theorem rowsFold_eq (cs : List Component) (f : Component → Param → List ℚ)
    (acc : List (List ℚ)) :
    cs.foldl
        (fun a c =>
          if c.active then
            c.freeParams.foldl (fun a2 p => a2 ++ [f c p]) a
          else a) acc =
      acc ++ (cs.filter (·.active)).flatMap (fun c => c.freeParams.map (f c)) := by
  induction cs generalizing acc with
  | nil => simp
  | cons c cs ih =>
    rw [List.foldl_cons]
    cases hc : c.active
    · simp only [Bool.false_eq_true, if_false]
      rw [ih, List.filter_cons, hc]
      simp
    · simp only [if_true]
      rw [foldl_append_singleton, ih, List.filter_cons, hc]
      simp

theorem evalGrad_length (m : Model) (c : Component) (g : ℚ → ℚ)
    (hconv : m.convolution_axis.length + 1 =
      m.axis.length + m.lowLoss.length)
    (hax : 1 ≤ m.axis.length) :
    (evalGrad m c g).length = m.axis.length := by
  unfold evalGrad
  split
  · rw [npConvolveValid_length, List.length_map]
    omega
  · rw [List.length_map]

theorem gradRow_eq_evalGrad (m : Model) (c : Component) (p : Param) :
    gradRow m c p =
      p.twinGrads.foldl (fun g t => addLists g (evalGrad m c t))
        (evalGrad m c p.grad) := by
  unfold gradRow evalGrad
  cases hc : c.convolved <;> simp [hc]

/-- C4: in the convolved configuration, `_jacobian` returns — stacked in the
order `_set_p0` uses and with columns restricted to `channel_switches` and
multiplied by the weights when given — for every free parameter of every
active component the parameter's own gradient over its evaluation axis plus,
elementwise, the sum of its direct twins' gradients evaluated the same way. -/
theorem jacobian_twin_rows (m : Model) (w : Option (List ℚ))
    (h : m.convolved = true)
    (hconv : m.convolution_axis.length + 1 =
      m.axis.length + m.lowLoss.length)
    (hax : 1 ≤ m.axis.length) :
    jacobian m w =
      (m.components.filter (·.active)).flatMap
        (fun c => c.freeParams.map (fun p =>
          applyWeights w (boolMask m.channel_switches
            (addLists (evalGrad m c p.grad)
              ((p.twinGrads.map (evalGrad m c)).foldl addLists
                (zeros m.axis.length)))))) := by
  have hrow : ∀ (c : Component) (p : Param),
      gradRow m c p =
        addLists (evalGrad m c p.grad)
          ((p.twinGrads.map (evalGrad m c)).foldl addLists
            (zeros m.axis.length)) := by
    intro c p
    rw [gradRow_eq_evalGrad]
    have hpull := foldl_addLists_pull m.axis.length
      (p.twinGrads.map (evalGrad m c)) (evalGrad m c p.grad)
      (evalGrad_length m c p.grad hconv hax)
      (by
        intro r hr
        obtain ⟨t, _, rfl⟩ := List.mem_map.mp hr
        exact evalGrad_length m c t hconv hax)
    rw [List.foldl_map] at hpull
    exact hpull
  unfold jacobian
  rw [if_pos h, rowsFold_eq, List.nil_append, List.map_flatMap]
  simp only [List.map_map, Function.comp_def, hrow]

/-- Witness model for C4: a convolved component whose free parameter has one
twin, and a plain component without twins. -/
def mC4 : Model where
  components :=
    [{ active := true, convolved := true,
       params := [{ free := true, value := .scalar 1,
                    grad := fun x => x, twinGrads := [fun _ => 1] }] },
     { active := true, convolved := false,
       params := [{ free := true, value := .scalar 2,
                    grad := fun x => x + 1 }] }]
  axis := [0, 1]
  channel_switches := [true, true]
  convolved := true
  lowLoss := [1, 1]
  convolution_axis := [0, 1, 2]

theorem jacobian_twin_rows_witness :
    mC4.convolved = true ∧
    mC4.convolution_axis.length + 1 = mC4.axis.length + mC4.lowLoss.length ∧
    1 ≤ mC4.axis.length ∧
    jacobian mC4 (some [2, 3]) =
      (mC4.components.filter (·.active)).flatMap
        (fun c => c.freeParams.map (fun p =>
          applyWeights (some [2, 3]) (boolMask mC4.channel_switches
            (addLists (evalGrad mC4 c p.grad)
              ((p.twinGrads.map (evalGrad mC4 c)).foldl addLists
                (zeros mC4.axis.length)))))) :=
  ⟨rfl, rfl, by decide,
    jacobian_twin_rows mC4 (some [2, 3]) rfl rfl (by decide)⟩

/-- The value of the `bounded` argument that `multifit` passes on to `fit`
after the bounding setup: Python `True`, `False` or `None`. -/
inductive BoundedArg : Type
  | btrue
  | bfalse
  | bnone
  deriving Repr, DecidableEq

/-- The observable events of one `multifit` call, in program order. -/
inductive MEvent : Type
  | warnUnsupportedBounding
  | setMpfitParametersInfo
  | setBoundaries
  | charge (idx : ℕ)
  | fitCall (idx : ℕ) (bounded : BoundedArg)
  | save
  | deleteCheckpoint
  deriving Repr, DecidableEq

/-- A position mask: its numpy shape, and its values indexed by flattened
navigation position. -/
structure MaskArr : Type where
  shape : List ℕ
  vals : List Bool
  deriving Repr, DecidableEq

/-- The mask entry `mask[index]` at flattened position `idx` (`False` when no mask). -/
def maskedAt (mask : Option MaskArr) (idx : ℕ) : Bool :=
  match mask with
  | none => false
  | some mk => mk.vals.getD idx false

/-- The bounding-mode setup of `multifit` (model.py lines 617-629), run once
before the position loop: `mpfit` precomputes the parameter-info structure,
`tnc`/`l_bfgs_b` precompute the boundary list (both then pass `None` on to
`fit`), any other kind records a warning and degrades to `bounded = False`.
When bounding was not requested the fits are simply unbounded. -/
def boundingSetup (bounded : Bool) (fitter : String) : BoundedArg × List MEvent :=
  if bounded then
    if fitter = "mpfit" then (.bnone, [.setMpfitParametersInfo])
    else if fitter = "tnc" ∨ fitter = "l_bfgs_b" then (.bnone, [.setBoundaries])
    else (.bfalse, [.warnUnsupportedBounding])
  else (.bfalse, [])

/-- One iteration of the `multifit` position loop (model.py lines 631-640):
an unmasked position is charged and fitted and advances the counter `i`;
then, with autosaving on, the parameter maps are saved whenever
`i % autosave_every == 0`. -/
def multifitStep (mask : Option MaskArr) (autosave : Bool) (K : ℕ)
    (barg : BoundedArg) : ℕ × List MEvent → ℕ → ℕ × List MEvent
  | (i, evs), idx =>
    let s :=
      if maskedAt mask idx then (i, evs)
      else (i + 1, evs ++ [.charge idx, .fitCall idx barg])
    if autosave = true ∧ s.1 % K = 0 then (s.1, s.2 ++ [.save]) else s

/-- The whole position loop over the `N` flattened navigation positions. -/
def multifitLoop (mask : Option MaskArr) (autosave : Bool) (K : ℕ)
    (barg : BoundedArg) (N : ℕ) : ℕ × List MEvent :=
  (List.range N).foldl (multifitStep mask autosave K barg) (0, [])

/-- The product `np.cumprod(navigation_shape)[-1]`: the flattened position count. -/
def numPositions (navShape : List ℕ) : ℕ := navShape.prod

/-- The event trace of a `multifit` call that passed the mask check:
bounding setup, then the position loop, then — with autosaving on — the
removal of the checkpoint file. -/
def multifitRun (navShape : List ℕ) (mask : Option MaskArr) (fitter : String)
    (bounded autosave : Bool) (K : ℕ) : List MEvent :=
  (boundingSetup bounded fitter).2 ++
    (multifitLoop mask autosave K (boundingSetup bounded fitter).1
      (numPositions navShape)).2 ++
    (if autosave then [.deleteCheckpoint] else [])

/-- The driver `Model.multifit` (model.py lines 591-645), as the trace of its events.
A mask whose shape differs from the navigation shape aborts through
`messages.warning_exit` before the loop; `fit`'s solver-specific keyword
arguments and the `grad`/`charge_only_fixed` flags are omitted because they
do not alter which events occur. -/
def multifit (navShape : List ℕ) (mask : Option MaskArr) (fitter : String)
    (bounded autosave : Bool) (K : ℕ) : Except String (List MEvent) :=
  match mask with
  | some mk =>
    if mk.shape ≠ navShape then
      .error "The mask must be an array with the same espatial dimensions as the navigation shape"
    else .ok (multifitRun navShape (some mk) fitter bounded autosave K)
  | none => .ok (multifitRun navShape none fitter bounded autosave K)

/-- How many of the first `n` positions are not masked out — the value of
the loop counter `i` after `n` iterations. -/
def fittedCount (mask : Option MaskArr) (n : ℕ) : ℕ :=
  ((List.range n).filter (fun j => !maskedAt mask j)).length

/-- The events one loop iteration contributes for position `j`. -/
def loopBlock (mask : Option MaskArr) (autosave : Bool) (K : ℕ)
    (barg : BoundedArg) (j : ℕ) : List MEvent :=
  (if maskedAt mask j then [] else [.charge j, .fitCall j barg]) ++
    (if autosave = true ∧ (fittedCount mask (j + 1)) % K = 0
     then [.save] else [])

theorem fittedCount_succ (mask : Option MaskArr) (n : ℕ) :
    fittedCount mask (n + 1) =
      fittedCount mask n + (if maskedAt mask n then 0 else 1) := by
  unfold fittedCount
  rw [List.range_succ, List.filter_append]
  cases h : maskedAt mask n <;> simp [h]

/-- The loop fold computes the fitted-position count and the concatenation
of the per-position event blocks, in position order. -/
theorem multifitLoop_eq (mask : Option MaskArr) (autosave : Bool) (K : ℕ)
    (barg : BoundedArg) (N : ℕ) :
    multifitLoop mask autosave K barg N =
      (fittedCount mask N,
       (List.range N).flatMap (loopBlock mask autosave K barg)) := by
  induction N with
  | zero => rfl
  | succ n ih =>
    unfold multifitLoop at ih ⊢
    rw [List.range_succ, List.foldl_append, ih, List.flatMap_append]
    simp only [List.foldl_cons, List.foldl_nil, List.flatMap_cons,
      List.flatMap_nil, List.append_nil]
    unfold multifitStep loopBlock
    cases h : maskedAt mask n
    · simp only [h, Bool.false_eq_true, if_false]
      rw [fittedCount_succ, h]
      by_cases hs : autosave = true ∧ (fittedCount mask n + 1) % K = 0
      · simp [hs, fittedCount_succ, h]
      · simp [hs, fittedCount_succ, h]
    · simp only [h, if_true]
      rw [fittedCount_succ, h]
      by_cases hs : autosave = true ∧ fittedCount mask n % K = 0
      · simp [hs, fittedCount_succ, h]
      · simp [hs, fittedCount_succ, h]

theorem multifit_ok_trace (navShape : List ℕ) (mask : Option MaskArr)
    (fitter : String) (bounded autosave : Bool) (K : ℕ) (evs : List MEvent)
    (hok : multifit navShape mask fitter bounded autosave K = .ok evs) :
    evs = multifitRun navShape mask fitter bounded autosave K := by
  cases mask with
  | none =>
    simp only [multifit] at hok
    exact (Except.ok.inj hok).symm
  | some mk =>
    simp only [multifit] at hok
    split at hok
    · simp at hok
    · exact (Except.ok.inj hok).symm

/-- The bounding-setup events of `multifit`, as opposed to the per-position
loop events. -/
def isSetupEvent : MEvent → Bool
  | .warnUnsupportedBounding => true
  | .setMpfitParametersInfo => true
  | .setBoundaries => true
  | _ => false

theorem loop_events_shape (mask : Option MaskArr) (autosave : Bool) (K : ℕ)
    (barg : BoundedArg) (N : ℕ) :
    ∀ e ∈ (List.range N).flatMap (loopBlock mask autosave K barg),
      (∃ i, e = .charge i) ∨ (∃ i, e = .fitCall i barg) ∨ e = .save := by
  intro e he
  obtain ⟨j, _, hin⟩ := List.mem_flatMap.mp he
  unfold loopBlock at hin
  rcases List.mem_append.mp hin with h1 | h2
  · split at h1
    · simp at h1
    · rcases List.mem_cons.mp h1 with h | h
      · exact Or.inl ⟨j, h⟩
      · simp only [List.mem_singleton] at h
        exact Or.inr (Or.inl ⟨j, h⟩)
  · split at h2
    · simp only [List.mem_singleton] at h2
      exact Or.inr (Or.inr h2)
    · simp at h2

/-- C5: when bounded fitting is requested with a fitter kind that supports
no bounds, `multifit` still returns a trace (no failure): the bounding-mode
decision contributes at most one setup event placed before every loop event,
and for an unsupported kind that single event is the recorded warning while
every position's fit call proceeds unbounded. -/
theorem multifit_unsupported_bounding (navShape : List ℕ)
    (mask : Option MaskArr) (fitter : String) (autosave : Bool) (K : ℕ)
    (evs : List MEvent)
    (hok : multifit navShape mask fitter true autosave K = .ok evs) :
    ∃ pre post, evs = pre ++ post ∧
      pre.length ≤ 1 ∧
      (∀ e ∈ pre, isSetupEvent e = true) ∧
      (∀ e ∈ post, isSetupEvent e = false) ∧
      (fitter ≠ "mpfit" → fitter ≠ "tnc" → fitter ≠ "l_bfgs_b" →
        pre = [.warnUnsupportedBounding] ∧
        ∀ idx b, MEvent.fitCall idx b ∈ post → b = .bfalse) := by
  have hevs := multifit_ok_trace navShape mask fitter true autosave K evs hok
  unfold multifitRun at hevs
  rw [multifitLoop_eq] at hevs
  refine ⟨(boundingSetup true fitter).2,
    (List.range (numPositions navShape)).flatMap
        (loopBlock mask autosave K (boundingSetup true fitter).1) ++
      (if autosave then [.deleteCheckpoint] else []), ?_, ?_, ?_, ?_, ?_⟩
  · rw [hevs, List.append_assoc]
  · unfold boundingSetup
    split
    · split
      · simp
      · split <;> simp
    · simp
  · intro e he
    unfold boundingSetup at he
    split at he
    · split at he
      · simp at he
        subst he; rfl
      · split at he <;> (simp at he; subst he; rfl)
    · simp at he
  · intro e he
    rcases List.mem_append.mp he with h1 | h2
    · rcases loop_events_shape mask autosave K _ _ e h1 with ⟨i, rfl⟩ | ⟨i, rfl⟩ | rfl <;>
        rfl
    · split at h2
      · simp only [List.mem_singleton] at h2
        subst h2; rfl
      · simp at h2
  · intro h1 h2 h3
    have hsetup : boundingSetup true fitter =
        (.bfalse, [.warnUnsupportedBounding]) := by
      unfold boundingSetup
      rw [if_pos rfl, if_neg h1, if_neg (by simp [h2, h3])]
    constructor
    · rw [hsetup]
    · intro idx b hb
      rcases List.mem_append.mp hb with hl | hd
      · rcases loop_events_shape mask autosave K _ _ _ hl with ⟨i, he⟩ | ⟨i, he⟩ | he
        · cases he
        · rw [hsetup] at he
          cases he
          rfl
        · cases he
      · split at hd
        · simp only [List.mem_singleton] at hd
          cases hd
        · simp at hd

/-- Witness for C5: a 2-position run with the unsupported `leastsq` kind. -/
theorem multifit_unsupported_bounding_witness :
    multifit [2] none "leastsq" true false 10 =
        .ok [.warnUnsupportedBounding, .charge 0, .fitCall 0 .bfalse,
             .charge 1, .fitCall 1 .bfalse] ∧
      (∃ pre post,
        ([.warnUnsupportedBounding, .charge 0, .fitCall 0 .bfalse,
          .charge 1, .fitCall 1 .bfalse] : List MEvent) = pre ++ post ∧
        pre.length ≤ 1 ∧
        (∀ e ∈ pre, isSetupEvent e = true) ∧
        (∀ e ∈ post, isSetupEvent e = false) ∧
        ("leastsq" ≠ "mpfit" → "leastsq" ≠ "tnc" → "leastsq" ≠ "l_bfgs_b" →
          pre = [.warnUnsupportedBounding] ∧
          ∀ idx b, MEvent.fitCall idx b ∈ post → b = .bfalse)) :=
  ⟨by rfl,
    multifit_unsupported_bounding [2] none "leastsq" false 10 _ (by rfl)⟩

/-- C6: a mask whose shape differs from the navigation shape makes
`multifit` abort with the configuration error before the loop: the call
returns the error, so no position is ever charged or fitted. -/
theorem multifit_mask_mismatch (navShape : List ℕ) (mk : MaskArr)
    (fitter : String) (bounded autosave : Bool) (K : ℕ)
    (h : mk.shape ≠ navShape) :
    multifit navShape (some mk) fitter bounded autosave K =
      .error "The mask must be an array with the same espatial dimensions as the navigation shape" := by
  simp only [multifit]
  rw [if_pos h]

theorem multifit_mask_mismatch_witness :
    (MaskArr.mk [3] [true, true, true]).shape ≠ [2, 2] ∧
      multifit [2, 2] (some (MaskArr.mk [3] [true, true, true]))
          "leastsq" false false 10 =
        .error "The mask must be an array with the same espatial dimensions as the navigation shape" :=
  ⟨by decide,
    multifit_mask_mismatch [2, 2] (MaskArr.mk [3] [true, true, true])
      "leastsq" false false 10 (by decide)⟩

/-- One parameter's persisted state: its name and its per-position map,
flattened. -/
structure ParamMap : Type where
  pname : String
  pmap : List ℚ
  deriving Repr, DecidableEq

/-- One component's name and parameters, as `save_parameters2file` reads
them. -/
structure CompMaps : Type where
  cname : String
  params : List ParamMap
  deriving Repr, DecidableEq

/-- The normalization `name.lower().replace(' ', '_')` used by
`save_parameters2file`. -/
def normalizeName (s : String) : String := (s.toLower).replace " " "_"

/-- The archive key `'%s_%s.%s' % (i, cname, pname)` (model.py line 656). -/
def archiveKey (i : ℕ) (cname pname : String) : String :=
  toString i ++ "_" ++ normalizeName cname ++ "." ++ normalizeName pname

/-- The archive `Model.save_parameters2file` (model.py lines 648-658): one keyed entry
per parameter of every component — active or not — holding that parameter's
whole map. -/
def saveParameters2file (cs : List CompMaps) : List (String × List ℚ) :=
  cs.enum.flatMap (fun ic =>
    ic.2.params.map (fun p => (archiveKey ic.1 ic.2.cname p.pname, p.pmap)))

/-- Whether the autosave checkpoint file exists after the events `evs` of an
autosaving `multifit`: `tempfile.mkstemp` creates it up front and only the
final `os.remove` — the `deleteCheckpoint` event — removes it. -/
def checkpointPresent (evs : List MEvent) : Bool :=
  !(evs.contains .deleteCheckpoint)

theorem prefix_of_ne_append_singleton {α : Type} [DecidableEq α]
    (p xs : List α) (d : α)
    (hp : List.IsPrefix p (xs ++ [d])) (hne : p ≠ xs ++ [d]) :
    List.IsPrefix p xs := by
  have hlen := hp.length_le
  rw [List.length_append, List.length_singleton] at hlen
  have htake := List.prefix_iff_eq_take.mp hp
  by_cases h : p.length ≤ xs.length
  · rw [List.take_append_of_le_length h] at htake
    rw [htake]
    exact List.take_prefix _ _
  · exfalso
    have hl : p.length = xs.length + 1 := by omega
    rw [hl, List.take_of_length_le (by simp)] at htake
    exact hne htake

theorem deleteCheckpoint_not_mem_pre_loop (mask : Option MaskArr)
    (fitter : String) (bounded autosave : Bool) (K : ℕ) (N : ℕ) :
    MEvent.deleteCheckpoint ∉
      (boundingSetup bounded fitter).2 ++
        (List.range N).flatMap
          (loopBlock mask autosave K (boundingSetup bounded fitter).1) := by
  intro hmem
  rcases List.mem_append.mp hmem with h1 | h2
  · unfold boundingSetup at h1
    split at h1
    · split at h1
      · simp at h1
      · split at h1 <;> simp at h1
    · simp at h1
  · rcases loop_events_shape mask autosave K _ N _ h2 with ⟨i, he⟩ | ⟨i, he⟩ | he <;>
      cases he

/-- C8: an autosaving `multifit` pass that completes successfully produces —
after the bounding setup — one event block per position in which every
`autosave_every`-th fitted position is followed by a save of all parameter
maps to the one checkpoint file, ends by deleting that file (so it is absent
after a successful pass), leaves the file in place at every earlier
interruption point, and each save persists every component's every
parameter map under its own archive key. -/
theorem multifit_autosave_checkpoint (navShape : List ℕ)
    (mask : Option MaskArr) (fitter : String) (bounded : Bool) (K : ℕ)
    (evs : List MEvent) (cs : List CompMaps)
    (hok : multifit navShape mask fitter bounded true K = .ok evs) :
    (evs = (boundingSetup bounded fitter).2 ++
        (List.range (numPositions navShape)).flatMap
          (loopBlock mask true K (boundingSetup bounded fitter).1) ++
        [.deleteCheckpoint]) ∧
    (∀ j, maskedAt mask j = false → fittedCount mask (j + 1) % K = 0 →
      loopBlock mask true K (boundingSetup bounded fitter).1 j =
        [.charge j, .fitCall j (boundingSetup bounded fitter).1, .save]) ∧
    checkpointPresent evs = false ∧
    (∀ p, List.IsPrefix p evs → p ≠ evs → checkpointPresent p = true) ∧
    (∀ i (hi : i < cs.length), ∀ pm ∈ (cs.get ⟨i, hi⟩).params,
      (archiveKey i (cs.get ⟨i, hi⟩).cname pm.pname, pm.pmap) ∈
        saveParameters2file cs) := by
  have hevs := multifit_ok_trace navShape mask fitter bounded true K evs hok
  unfold multifitRun at hevs
  rw [multifitLoop_eq] at hevs
  simp only [if_true] at hevs
  refine ⟨hevs, ?_, ?_, ?_, ?_⟩
  · intro j hm hf
    unfold loopBlock
    simp [hm, hf]
  · rw [hevs]
    simp [checkpointPresent]
  · intro p hp hne
    rw [hevs] at hp hne
    have hpre := prefix_of_ne_append_singleton p _ _ hp hne
    have hnd : MEvent.deleteCheckpoint ∉ p := by
      intro hd
      exact deleteCheckpoint_not_mem_pre_loop mask fitter bounded true K
        (numPositions navShape) (hpre.subset hd)
    simp [checkpointPresent, hnd]
  · intro i hi pm hpm
    apply List.mem_flatMap.mpr
    refine ⟨(i, cs.get ⟨i, hi⟩), ?_, ?_⟩
    · rw [List.mem_enum_iff_getElem?, List.get_eq_getElem]
      exact List.getElem?_eq_getElem hi
    · exact List.mem_map.mpr ⟨pm, hpm, rfl⟩

/-- Witness for C8: a 2-position autosaving run saving after every fit. -/
theorem multifit_autosave_checkpoint_witness :
    multifit [2] none "leastsq" false true 1 =
        .ok [.charge 0, .fitCall 0 .bfalse, .save,
             .charge 1, .fitCall 1 .bfalse, .save, .deleteCheckpoint] ∧
      (([.charge 0, .fitCall 0 .bfalse, .save, .charge 1,
         .fitCall 1 .bfalse, .save, .deleteCheckpoint] : List MEvent) =
          (boundingSetup false "leastsq").2 ++
            (List.range (numPositions [2])).flatMap
              (loopBlock none true 1 (boundingSetup false "leastsq").1) ++
            [.deleteCheckpoint] ∧
        (∀ j, maskedAt none j = false → fittedCount none (j + 1) % 1 = 0 →
          loopBlock none true 1 (boundingSetup false "leastsq").1 j =
            [.charge j, .fitCall j (boundingSetup false "leastsq").1,
             .save]) ∧
        checkpointPresent
          [.charge 0, .fitCall 0 .bfalse, .save, .charge 1,
           .fitCall 1 .bfalse, .save, .deleteCheckpoint] = false ∧
        (∀ p, List.IsPrefix p
            [.charge 0, .fitCall 0 .bfalse, .save, .charge 1,
             .fitCall 1 .bfalse, .save, .deleteCheckpoint] →
          p ≠ [.charge 0, .fitCall 0 .bfalse, .save, .charge 1,
               .fitCall 1 .bfalse, .save, .deleteCheckpoint] →
          checkpointPresent p = true) ∧
        (∀ i (hi : i < ([⟨"Comp A", [⟨"Par B", [1, 2]⟩]⟩] :
            List CompMaps).length),
          ∀ pm ∈ (([⟨"Comp A", [⟨"Par B", [1, 2]⟩]⟩] :
              List CompMaps).get ⟨i, hi⟩).params,
          (archiveKey i (([⟨"Comp A", [⟨"Par B", [1, 2]⟩]⟩] :
              List CompMaps).get ⟨i, hi⟩).cname pm.pname, pm.pmap) ∈
            saveParameters2file [⟨"Comp A", [⟨"Par B", [1, 2]⟩]⟩])) :=
  ⟨by rfl,
    multifit_autosave_checkpoint [2] none "leastsq" false 1 _
      [⟨"Comp A", [⟨"Par B", [1, 2]⟩]⟩] (by rfl)⟩

/-- The observable events of a charge or store batch over the model's
parameters. -/
inductive PEvent : Type
  | assignFromMap (k : ℕ)
  | storeToMap (k : ℕ)
  | notifyObservers
  deriving Repr, DecidableEq

/-- The plot-connection state `Model.charge` and `Model.set` read: the
model's `auto_update_plot` flag, the parameters' common `connection_active`
flag (`set_auto_update_plot` always writes the same value into every
parameter), and the total parameter count over the components. -/
structure ObsModel : Type where
  auto_update_plot : Bool
  connActive : Bool
  nparams : ℕ
  deriving Repr, DecidableEq

/-- Modelled from the spec: the `Parameter` class itself is not under
`src/`; per §4.3 "any registered observers of parameter change (e.g., live
redraw)" fire on a value assignment, and only while the connection is
active.  Assigning one parameter's value from its map therefore notifies
the registered observers exactly when `connection_active` holds. -/
def assignEvents (connActive : Bool) (k : ℕ) : List PEvent :=
  [.assignFromMap k] ++ (if connActive then [.notifyObservers] else [])

/-- The per-parameter part of `Model.charge` (model.py lines 263-281): if
`auto_update_plot` is truthy the batch first runs
`set_auto_update_plot(False)`, so every assignment happens with the
connections inactive. -/
def chargeBatch (m : ObsModel) : List PEvent :=
  (List.range m.nparams).flatMap
    (assignEvents (if m.auto_update_plot then false else m.connActive))

/-- The end of `Model.charge`: when it suspended the connections it restores
them and calls `update_plot()` once. -/
def chargeTail (m : ObsModel) : List PEvent :=
  if m.auto_update_plot then [.notifyObservers] else []

/-- The whole event trace of `Model.charge`. -/
def chargeTrace (m : ObsModel) : List PEvent := chargeBatch m ++ chargeTail m

/-- The event trace of `Model.set` (model.py lines 253-261): each component
stores its current parameter values into the maps.  Storing reads the live
values and writes the maps — no parameter value is assigned, so no
parameter-change observer can fire. -/
def storeTrace (m : ObsModel) : List PEvent :=
  (List.range m.nparams).map .storeToMap

theorem count_notify_assign_flatMap (l : List ℕ) :
    ((l.flatMap (assignEvents false)).count PEvent.notifyObservers) = 0 := by
  induction l with
  | nil => rfl
  | cons k l ih => simp [assignEvents, List.count_cons, ih]

/-- C7: assuming the flag-synchrony invariant that `set_auto_update_plot`,
`connect_parameters2update_plot` and `disconnect_parameters2update_plot`
maintain (`connection_active` holds only while `auto_update_plot` does),
a charge batch fires no observer notification while it runs and at most one
at its end, and a store batch fires none at all. -/
theorem charge_store_observer_batch (m : ObsModel)
    (hsync : m.connActive = m.auto_update_plot) :
    chargeTrace m = chargeBatch m ++ chargeTail m ∧
      (chargeBatch m).count .notifyObservers = 0 ∧
      (chargeTail m).count .notifyObservers ≤ 1 ∧
      (storeTrace m).count .notifyObservers = 0 := by
  refine ⟨rfl, ?_, ?_, ?_⟩
  · have hconn : (if m.auto_update_plot then false else m.connActive) = false := by
      cases h : m.auto_update_plot
      · rw [if_neg (by simp [h]), hsync, h]
      · rw [if_pos (by simp [h])]
    unfold chargeBatch
    rw [hconn]
    exact count_notify_assign_flatMap _
  · unfold chargeTail
    cases h : m.auto_update_plot <;> simp
  · unfold storeTrace
    have hcount : ∀ n, ((List.range n).map PEvent.storeToMap).count
        PEvent.notifyObservers = 0 := by
      intro n
      induction n with
      | zero => rfl
      | succ k ih =>
        rw [List.range_succ, List.map_append, List.count_append, ih]
        simp
    exact hcount m.nparams

/-- Witness for C7 with the plot live (flags on, two parameters). -/
theorem charge_store_observer_batch_witness :
    (ObsModel.mk true true 2).connActive =
        (ObsModel.mk true true 2).auto_update_plot ∧
      (chargeTrace (ObsModel.mk true true 2) =
          chargeBatch (ObsModel.mk true true 2) ++
            chargeTail (ObsModel.mk true true 2) ∧
        (chargeBatch (ObsModel.mk true true 2)).count .notifyObservers = 0 ∧
        (chargeTail (ObsModel.mk true true 2)).count .notifyObservers ≤ 1 ∧
        (storeTrace (ObsModel.mk true true 2)).count .notifyObservers = 0) :=
  ⟨rfl, charge_store_observer_batch (ObsModel.mk true true 2) rfl⟩

/-- The Gatan nomenclature conversion of `Edge.readgosfile`
(edge.py lines 137-140): subshell `"K"` is looked up as `"K1"`. -/
def gatanSubshell (subshell : String) : String :=
  if subshell = "K" then "K1" else subshell

/-- The resource checks of `Edge.__init__` and the `readgosfile` it calls at
construction time (edge.py lines 58-97 and 134-149).  `db` stands for
`edges_dict`: each element maps to its available subshell names.  The three
`messages.warning_exit` calls are the non-recoverable configuration errors;
their messages are carried in the `Except.error`.  (The subshell message in
the source additionally lists the available subshells, and a successful
construction goes on to read the GOS table file; both are irrelevant to
which inputs fail, so success is abstracted to the resolved element and
Gatan subshell.)  `element` and `subshell` are the two halves of the
`element_subshell` argument split at its underscore. -/
def edgeInit (gosDir : String) (db : List (String × List String))
    (element subshell : String) : Except String (String × String) :=
  if gosDir = "None" then
    .error "The path to the GOS files could not be found. Please define a valid GOS folder location in the configuration file."
  else
    match db.lookup element with
    | none => .error ("The given element " ++ element ++
        " is not in the database.")
    | some subs =>
      if gatanSubshell subshell ∈ subs then .ok (element, gatanSubshell subshell)
      else .error ("The given subshell " ++ gatanSubshell subshell ++
        " is not in the database.")

/-- C9: constructing an `Edge` whose required external resource is missing —
the GOS directory unset, the element absent from the database, or the
subshell absent for that element — fails during construction with a
descriptive (non-empty-message) configuration error, and never returns a
component on which evaluation or fitting could later be attempted. -/
theorem edgeInit_missing_resource (gosDir : String)
    (db : List (String × List String)) (element subshell : String)
    (h : gosDir = "None" ∨ db.lookup element = none ∨
      ∃ subs, db.lookup element = some subs ∧ gatanSubshell subshell ∉ subs) :
    ∃ msg, edgeInit gosDir db element subshell = Except.error msg ∧
      msg.length ≠ 0 ∧
      ∀ e, edgeInit gosDir db element subshell ≠ Except.ok e := by
  unfold edgeInit
  by_cases hg : gosDir = "None"
  · rw [if_pos hg]
    exact ⟨_, rfl, by decide, by simp⟩
  · rw [if_neg hg]
    split
    · refine ⟨_, rfl, ?_, by simp⟩
      intro hcon
      rw [String.length_append, String.length_append] at hcon
      have h3 : (" is not in the database." : String).length = 0 := by omega
      exact absurd h3 (by decide)
    · rename_i subs hdb
      rcases h with h | h | ⟨subs2, hs2, hns⟩
      · exact absurd h hg
      · rw [hdb] at h
        cases h
      · rw [hdb] at hs2
        cases hs2
        rw [if_neg hns]
        refine ⟨_, rfl, ?_, by simp⟩
        intro hcon
        rw [String.length_append, String.length_append] at hcon
        have h3 : (" is not in the database." : String).length = 0 := by omega
        exact absurd h3 (by decide)

/-- Witness for C9: a present database but an unset GOS directory. -/
theorem edgeInit_missing_resource_witness :
    (("None" : String) = "None" ∨
        ([("C", ["K1", "L3"])] : List (String × List String)).lookup "C" =
          none ∨
        ∃ subs, ([("C", ["K1", "L3"])] :
            List (String × List String)).lookup "C" = some subs ∧
          gatanSubshell "K" ∉ subs) ∧
      ∃ msg, edgeInit "None" [("C", ["K1", "L3"])] "C" "K" =
          Except.error msg ∧ msg.length ≠ 0 ∧
        ∀ e, edgeInit "None" [("C", ["K1", "L3"])] "C" "K" ≠ Except.ok e :=
  ⟨Or.inl rfl,
    edgeInit_missing_resource "None" [("C", ["K1", "L3"])] "C" "K"
      (Or.inl rfl)⟩

end HyperspyModel
